import Mathlib

/-
  Verification development for the Angular-Mentor repository.

  Shallow embedding of:
  - the base64 helpers `encode`/`decode` of the VoiceAssistant component
    (composed with the browser's btoa/atob, modelled at the byte level),
  - the VoiceAssistant live-session controller (startSession / stopSession /
    onmessage / onclose) as a step machine over an explicit state record,
  - the clip player of App.tsx (playAudio / stopAudio) as a step machine,
  - the Firestore-backed cache layer of dbService.ts,
  - the text-cleaning transform of geminiService.getAudioFromText.

  Strings are modelled as lists of UTF-16 code units (Nat), byte arrays as
  lists of Nat values below 256, and audio-clock times as rationals.
-/

namespace AngularMentor

/-! ### Base64 model (src/unnamed/part_001, `encode`/`decode`)

The repository's `encode` turns a `Uint8Array` into a binary string
(one char per byte) and calls `btoa`; `decode` calls `atob` and reads the
resulting binary string back byte by byte.  Since every byte is below 256,
the binary-string round trip is the identity, so the pair is modelled
directly as standard base64 over byte lists.  `atob` is modelled as the
forgiving base64 decoder used by browsers: trailing padding bits that are
not zero are accepted and silently discarded. -/

/-- The standard base64 alphabet, as ASCII codes: A–Z, a–z, 0–9, '+', '/'. -/
def b64alphabet : List Nat :=
  [65, 66, 67, 68, 69, 70, 71, 72, 73, 74, 75, 76, 77, 78, 79, 80, 81, 82,
   83, 84, 85, 86, 87, 88, 89, 90,
   97, 98, 99, 100, 101, 102, 103, 104, 105, 106, 107, 108, 109, 110, 111,
   112, 113, 114, 115, 116, 117, 118, 119, 120, 121, 122,
   48, 49, 50, 51, 52, 53, 54, 55, 56, 57, 43, 47]

/-- ASCII code of the base64 character for a sextet. -/
def sextetToChar (n : Nat) : Nat := b64alphabet.getD n 65

/-- Sextet value of a base64 character (64 for characters outside the alphabet). -/
def charToSextet (c : Nat) : Nat := b64alphabet.indexOf c

def eChar1 (a : Nat) : Nat := sextetToChar (a / 4)
def eChar2 (a b : Nat) : Nat := sextetToChar (a % 4 * 16 + b / 16)
def eChar3 (b c : Nat) : Nat := sextetToChar (b % 16 * 4 + c / 64)
def eChar4 (c : Nat) : Nat := sextetToChar (c % 64)

/-- btoa composed with the repository's byte-to-binary-string loop:
standard base64 encoding of a byte list, '=' is code 61. -/
def b64encode : List Nat → List Nat
  | [] => []
  | [a] => [eChar1 a, sextetToChar (a % 4 * 16), 61, 61]
  | [a, b] => [eChar1 a, eChar2 a b, sextetToChar (b % 16 * 4), 61]
  | a :: b :: c :: rest =>
      eChar1 a :: eChar2 a b :: eChar3 b c :: eChar4 c :: b64encode rest

def dByte1 (w x : Nat) : Nat := charToSextet w * 4 + charToSextet x / 16
def dByte2 (x y : Nat) : Nat := charToSextet x % 16 * 16 + charToSextet y / 4
def dByte3 (y z : Nat) : Nat := charToSextet y % 4 * 64 + charToSextet z

/-- atob composed with the repository's binary-string-to-byte loop, on
well-formed inputs: forgiving base64 decoding (extra bits before '='
padding are discarded, as browsers do). -/
def b64decode : List Nat → List Nat
  | w :: x :: y :: z :: rest =>
      if y = 61 then [dByte1 w x]
      else if z = 61 then [dByte1 w x, dByte2 x y]
      else dByte1 w x :: dByte2 x y :: dByte3 y z :: b64decode rest
  | _ => []

/-- Whether a base64 character is in the alphabet. -/
def isB64Char (c : Nat) : Bool := b64alphabet.contains c

/-- The strings accepted by `atob`: groups of four alphabet characters,
where the final group may end in one or two '=' padding characters. -/
def validB64 : List Nat → Bool
  | [] => true
  | [a, b, c, d] =>
      isB64Char a && isB64Char b &&
        ((isB64Char c && (isB64Char d || d = 61)) || (c = 61 && d = 61))
  | a :: b :: c :: d :: rest =>
      isB64Char a && isB64Char b && isB64Char c && isB64Char d && validB64 rest
  | _ => false

theorem charToSextet_sextetToChar : ∀ n < 64, charToSextet (sextetToChar n) = n := by
  decide

theorem sextetToChar_lt (n : Nat) (h : n < 64) : sextetToChar n ≠ 61 := by
  revert h
  revert n
  decide

theorem b64_roundTrip : ∀ bs : List Nat, (∀ x ∈ bs, x < 256) →
    b64decode (b64encode bs) = bs
  | [], _ => rfl
  | [a], h => by
      have ha : a < 256 := h a (by simp)
      have k1 := charToSextet_sextetToChar (a / 4) (by omega)
      have k2 := charToSextet_sextetToChar (a % 4 * 16) (by omega)
      simp [b64encode, b64decode, dByte1, eChar1, k1, k2]
      omega
  | [a, b], h => by
      have ha : a < 256 := h a (by simp)
      have hb : b < 256 := h b (by simp)
      have hne : sextetToChar (b % 16 * 4) ≠ 61 := sextetToChar_lt _ (by omega)
      have k1 := charToSextet_sextetToChar (a / 4) (by omega)
      have k2 := charToSextet_sextetToChar (a % 4 * 16 + b / 16) (by omega)
      have k3 := charToSextet_sextetToChar (b % 16 * 4) (by omega)
      simp [b64encode, b64decode, dByte1, dByte2, eChar1, eChar2, hne, k1, k2, k3]
      constructor <;> omega
  | a :: b :: c :: rest, h => by
      have ha : a < 256 := h a (by simp)
      have hb : b < 256 := h b (by simp)
      have hc : c < 256 := h c (by simp)
      have hne3 : sextetToChar (b % 16 * 4 + c / 64) ≠ 61 := sextetToChar_lt _ (by omega)
      have hne4 : sextetToChar (c % 64) ≠ 61 := sextetToChar_lt _ (by omega)
      have k1 := charToSextet_sextetToChar (a / 4) (by omega)
      have k2 := charToSextet_sextetToChar (a % 4 * 16 + b / 16) (by omega)
      have k3 := charToSextet_sextetToChar (b % 16 * 4 + c / 64) (by omega)
      have k4 := charToSextet_sextetToChar (c % 64) (by omega)
      have ih := b64_roundTrip rest (fun x hx => h x (by simp [hx]))
      simp [b64encode, b64decode, dByte1, dByte2, dByte3, eChar1, eChar2, eChar3,
        eChar4, hne3, hne4, k1, k2, k3, k4, ih]
      refine ⟨by omega, by omega, by omega⟩

/-! ### Live Session Controller (src/unnamed/part_001, `VoiceAssistant`)

State machine over the component's refs and state:
`sessionRef`, `isActive`, `audioContextRef`, `nextStartTimeRef`, `sourcesRef`.
Audio-clock times and clip durations are rationals.  Each tracked source
records the source id, its scheduled start time and its duration; sources
that have been stopped via `source.stop()` are accumulated in `stopped`.
Handles and audio contexts are identified by numbers.  Each `onmessage`
handler invocation is modelled as an atomic step. -/

/-- One scheduled `AudioBufferSourceNode`: identity, scheduled start, duration. -/
structure SourceNode where
  sid : Nat
  start : ℚ
  dur : ℚ
deriving DecidableEq

/-- The mutable state of the VoiceAssistant component. -/
structure VAState where
  session : Option Nat
  isActive : Bool
  audioCtx : Option Nat
  nextStartTime : ℚ
  sources : List SourceNode
  stopped : List SourceNode
  nextId : Nat
deriving DecidableEq

/-- The component's events.
* `startOk h ctx`: `startSession` succeeds — assigns `audioContextRef`,
  stores the session handle, sets `isActive` (scheduling state untouched);
* `startFail ctx`: `startSession` throws before the handle is obtained —
  only `audioContextRef` may have been assigned, the error is logged;
* `msgAudio ct dur`: `onmessage` with inbound audio at clock time `ct`;
* `msgInterrupt`: `onmessage` with `serverContent.interrupted` set;
* `ended sid`: a source's `ended` listener removes it from the tracked set;
* `stopSession`: the stop button;
* `close`: the connection's `onclose` callback (sets `isActive` false only). -/
inductive VAEv where
  | startOk (h : Nat) (ctx : Nat)
  | startFail (ctx : Option Nat)
  | msgAudio (ct dur : ℚ)
  | msgInterrupt
  | ended (sid : Nat)
  | stopSession
  | close
deriving DecidableEq

/-- Model of `stopSession`: close the API session, stop and discard every tracked
source, reset the schedule, clear the UI flag. -/
def stopSessionFn (s : VAState) : VAState :=
  { s with session := none, isActive := false,
           stopped := s.stopped ++ s.sources, sources := [],
           nextStartTime := 0 }

/-- One transition of the VoiceAssistant, translated from the source. -/
def step (s : VAState) : VAEv → VAState
  | .startOk h ctx =>
      { s with session := some h, isActive := true, audioCtx := some ctx }
  | .startFail ctx =>
      { s with audioCtx := match ctx with | none => s.audioCtx | some c => some c }
  | .msgAudio ct dur =>
      { s with nextStartTime := max s.nextStartTime ct + dur,
               sources := s.sources ++ [⟨s.nextId, max s.nextStartTime ct, dur⟩],
               nextId := s.nextId + 1 }
  | .msgInterrupt =>
      { s with stopped := s.stopped ++ s.sources, sources := [],
               nextStartTime := 0 }
  | .ended sid =>
      { s with sources := s.sources.filter (fun x => x.sid ≠ sid) }
  | .stopSession => stopSessionFn s
  | .close => { s with isActive := false }

/-- Run a list of events from a state. -/
def runVA (s : VAState) : List VAEv → VAState
  | [] => s
  | e :: es => runVA (step s e) es

/-- The initial component state: no session, inactive, everything empty. -/
def initVA : VAState := ⟨none, false, none, 0, [], [], 0⟩

/-- Pure scheduling recursion: given `nextStartTime = n` and a list of
(arrival clock time, duration) pairs, the list of (scheduled start,
duration) pairs produced by successive `msgAudio` steps. -/
def schedRun (n : ℚ) : List (ℚ × ℚ) → List (ℚ × ℚ)
  | [] => []
  | p :: rest => (max n p.1, p.2) :: schedRun (max n p.1 + p.2) rest

/-- Tag scheduled slots with consecutive source ids. -/
def tagIds (k : Nat) : List (ℚ × ℚ) → List SourceNode
  | [] => []
  | p :: rest => ⟨k, p.1, p.2⟩ :: tagIds (k + 1) rest

theorem runVA_append (a b : List VAEv) : ∀ s, runVA s (a ++ b) = runVA (runVA s a) b := by
  induction a with
  | nil => intro s; rfl
  | cons e es ih => intro s; simp [runVA, ih]

/-- A run of pure audio messages appends exactly the slots computed by
`schedRun`, tagged with consecutive ids. -/
theorem runVA_audio_sources : ∀ (ps : List (ℚ × ℚ)) (s : VAState),
    (runVA s (ps.map (fun p => VAEv.msgAudio p.1 p.2))).sources
      = s.sources ++ tagIds s.nextId (schedRun s.nextStartTime ps) := by
  intro ps
  induction ps with
  | nil => intro s; simp [runVA, schedRun, tagIds]
  | cons p rest ih =>
      intro s
      simp only [List.map_cons, runVA, step, schedRun, tagIds]
      rw [ih]
      simp

/-- Partial sums: `psumsFrom n [d1, d2, ...] = [n, n + d1, n + d1 + d2, ...]`
(one entry per chunk, the entry being that chunk's scheduled start). -/
def psumsFrom (n : ℚ) : List ℚ → List ℚ
  | [] => []
  | d :: ds => n :: psumsFrom (n + d) ds

theorem schedRun_zero_ct : ∀ (ds : List ℚ) (n : ℚ), 0 ≤ n → (∀ d ∈ ds, 0 ≤ d) →
    (schedRun n (ds.map (fun d => ((0 : ℚ), d)))).map Prod.fst = psumsFrom n ds := by
  intro ds
  induction ds with
  | nil => intro n _ _; simp [schedRun, psumsFrom]
  | cons d rest ih =>
      intro n hn hds
      have hd : (0 : ℚ) ≤ d := hds d (by simp)
      have hmax : max n (0 : ℚ) = n := max_eq_left hn
      simp only [List.map_cons, schedRun, psumsFrom, hmax]
      rw [ih (n + d) (by linarith) (fun x hx => hds x (by simp [hx]))]

theorem psumsFrom_getD : ∀ (ds : List ℚ) (n : ℚ) (i : Nat), i < ds.length →
    (psumsFrom n ds).getD i 0 = n + (ds.take i).sum := by
  intro ds
  induction ds with
  | nil => intro n i hi; simp at hi
  | cons d rest ih =>
      intro n i hi
      cases i with
      | zero => simp [psumsFrom]
      | succ j =>
          simp only [psumsFrom, List.getD_cons_succ, List.take_succ_cons,
            List.sum_cons]
          rw [ih (n + d) j (by simpa using hi)]
          ring

theorem tagIds_map_start : ∀ (l : List (ℚ × ℚ)) (k : Nat),
    (tagIds k l).map SourceNode.start = l.map Prod.fst := by
  intro l
  induction l with
  | nil => intro k; rfl
  | cons p rest ih => intro k; simp [tagIds, ih]

/-! ### Clip Player (src/App.tsx, `playAudio` / `stopAudio`)

State over the refs and flags `activeAudioQuestionIdRef`, `audioSourceRef`,
`isPlaying`, `isAudioLoading`; question ids are numbers.  The list
`started` records every clip that actually reached `source.start(0)`,
`stoppedClips` records every source passed to `source.stop()`.  A
`playAudio(id, text)` call contributes up to three events to the
cooperative queue: its synchronous prefix (`play`), the resume after the
TTS fetch (`fetchDone`, which aborts silently on a stale token), and the
resume after the audio decode (`decodeDone`, which re-checks the token and
only then starts playback). -/

structure PState where
  activeId : Option Nat
  source : Option Nat
  isPlaying : Bool
  isAudioLoading : Bool
  started : List Nat
  stoppedClips : List Nat
deriving DecidableEq

/-- Model of `stopAudio`: clear the token, stop and drop the current source, clear
the playing flag.  Translated from App.tsx lines 95–102. -/
def stopAudio (p : PState) : PState :=
  { p with activeId := none,
           stoppedClips := p.stoppedClips ++ p.source.toList,
           source := none,
           isPlaying := false }

inductive PEv where
  | play (i : Nat)
  | fetchDone (i : Nat)
  | decodeDone (i : Nat)
  | endedClip (i : Nat)
  | stop
deriving DecidableEq

/-- One step of the clip player.
* `play i` is the synchronous prefix of `playAudio(i, _)`: `stopAudio()`,
  then capture `i` as the active token and raise the loading flag;
* `fetchDone i` is the token check after `getAudioFromText` resolves —
  it never mutates state (a stale call just returns);
* `decodeDone i` re-checks the token; on a match it stores the source,
  starts playback and lowers the loading flag, otherwise it returns;
* `endedClip i` is the `onended` listener; `stop` is `stopAudio`. -/
def pstep (p : PState) : PEv → PState
  | .play i => { stopAudio p with activeId := some i, isAudioLoading := true }
  | .fetchDone _ => p
  | .decodeDone i =>
      if p.activeId = some i then
        { p with source := some i, isPlaying := true,
                 started := p.started ++ [i], isAudioLoading := false }
      else p
  | .endedClip i => if p.activeId = some i then { p with isPlaying := false } else p
  | .stop => stopAudio p

def prun (p : PState) : List PEv → PState
  | [] => p
  | e :: es => prun (pstep p e) es

def initP : PState := ⟨none, none, false, false, [], []⟩

theorem prun_append (a b : List PEv) : ∀ p, prun p (a ++ b) = prun (prun p a) b := by
  induction a with
  | nil => intro p; rfl
  | cons e es ih => intro p; simp [prun, ih]

/-- Processing play events only never starts anything. -/
theorem prun_plays_started : ∀ (ids : List Nat) (p : PState),
    (prun p (ids.map PEv.play)).started = p.started := by
  intro ids
  induction ids with
  | nil => intro p; rfl
  | cons i rest ih => intro p; simp [prun, pstep, stopAudio, ih]

/-- After any event list ending in `play L`, the active token is `L`. -/
theorem prun_snoc_play (l : List PEv) (L : Nat) (p : PState) :
    (prun p (l ++ [PEv.play L])).activeId = some L := by
  rw [prun_append]
  rfl

/-- Once the token is `L` (or cleared), a play-free suffix can only start
clips equal to `L`. -/
theorem prun_no_play_started : ∀ (post : List PEv) (p : PState) (L : Nat),
    (∀ j, PEv.play j ∉ post) →
    (p.activeId = some L ∨ p.activeId = none) →
    ∀ i ∈ (prun p post).started, i ∈ p.started ∨ i = L := by
  intro post
  induction post with
  | nil => intro p L _ _ i hi; exact Or.inl hi
  | cons e es ih =>
      intro p L hnp hact i hi
      have hnp' : ∀ j, PEv.play j ∉ es := by
        intro j hj
        exact hnp j (by simp [hj])
      cases e with
      | play j => exact absurd (by simp : PEv.play j ∈ PEv.play j :: es) (hnp j)
      | fetchDone j =>
          exact ih p L hnp' hact i (by simpa [prun, pstep] using hi)
      | decodeDone j =>
          rw [prun] at hi
          by_cases hc : p.activeId = some j
          · have hjL : j = L := by
              rcases hact with h | h
              · rw [h] at hc; exact (Option.some_inj.mp hc.symm)
              · rw [h] at hc; exact absurd hc (by simp)
            have := ih { p with source := some j, isPlaying := true,
                                started := p.started ++ [j], isAudioLoading := false }
              L hnp' (by simpa [hjL] using hact) i (by simpa [pstep, hc] using hi)
            rcases this with h | h
            · rcases List.mem_append.mp h with h' | h'
              · exact Or.inl h'
              · exact Or.inr (by simpa [hjL] using h')
            · exact Or.inr h
          · exact ih p L hnp' hact i (by simpa [pstep, hc] using hi)
      | endedClip j =>
          rw [prun] at hi
          by_cases hc : p.activeId = some j
          · exact ih { p with isPlaying := false } L hnp' (by simpa using hact) i
              (by simpa [pstep, hc] using hi)
          · exact ih p L hnp' hact i (by simpa [pstep, hc] using hi)
      | stop =>
          exact ih (stopAudio p) L hnp' (Or.inr rfl) i
            (by simpa [prun, pstep] using hi)

/-! ### Firestore cache layer (src/services/dbService.ts)

The document store is a pair of collections, each a keyed list of
documents; users carry a uid and the email-verified flag.  `getValidUser`
is the repository's auth gate: it returns the current user when one is
signed in and `none` otherwise — it does not inspect `emailVerified`.
Payload strings (answers, audio, text) are abstracted to numbers. -/

structure FireUser where
  uid : Nat
  emailVerified : Bool
deriving DecidableEq

/-- A document of the `ai_answers` collection. -/
structure CachedEntry where
  questionId : Nat
  answer : Nat
  srcs : List Nat
  audioBase64 : Option Nat
  timestamp : Nat
deriving DecidableEq

/-- A document of the `user_questions` collection. -/
structure UserQuestionDoc where
  text : Nat
  category : Nat
  isCustom : Bool
  userId : Nat
  createdAt : Nat
deriving DecidableEq

structure Firestore where
  ai_answers : List (Nat × CachedEntry)
  user_questions : List (Nat × UserQuestionDoc)
deriving DecidableEq

/-- The auth precondition check of dbService.ts: just `auth.currentUser`,
logging a warning and yielding `none` when nobody is signed in. -/
def getValidUser (cu : Option FireUser) : Option FireUser := cu

/-- Model of `setDoc`: replace the document at a key, creating it if absent. -/
def upsert {α : Type} (l : List (Nat × α)) (k : Nat) (v : α) : List (Nat × α) :=
  l.filter (fun p => p.1 ≠ k) ++ [(k, v)]

/-- Model of `getCachedAnswer`: skipped without a user; otherwise a keyed read of
`ai_answers` by question id (the key does not involve the user). -/
def getCachedAnswer (cu : Option FireUser) (db : Firestore) (qid : Nat) :
    Option CachedEntry :=
  match getValidUser cu with
  | none => none
  | some _ => db.ai_answers.lookup qid

/-- Model of `saveAnswerToCache`: skipped without a user; otherwise a keyed write of
`ai_answers` at `entry.questionId`. -/
def saveAnswerToCache (cu : Option FireUser) (db : Firestore) (e : CachedEntry) :
    Firestore :=
  match getValidUser cu with
  | none => db
  | some _ => { db with ai_answers := upsert db.ai_answers e.questionId e }

/-- Model of `getAllCachedIds`: skipped without a user; otherwise every document id
of `ai_answers`, regardless of who wrote it. -/
def getAllCachedIds (cu : Option FireUser) (db : Firestore) : List Nat :=
  match getValidUser cu with
  | none => []
  | some _ => db.ai_answers.map Prod.fst

/-- Model of `getCustomQuestions`: skipped without a user; otherwise the documents of
`user_questions` whose `userId` equals the caller's uid. -/
def getCustomQuestions (cu : Option FireUser) (db : Firestore) :
    List (Nat × UserQuestionDoc) :=
  match getValidUser cu with
  | none => []
  | some u => db.user_questions.filter (fun p => p.2.userId = u.uid)

/-- Model of `saveCustomQuestion`: skipped without a user; otherwise writes the
question stamped with the caller's uid and the current time. -/
def saveCustomQuestion (cu : Option FireUser) (db : Firestore) (qid : Nat)
    (q : UserQuestionDoc) (now : Nat) : Firestore :=
  match getValidUser cu with
  | none => db
  | some u =>
      { db with user_questions :=
          upsert db.user_questions qid { q with userId := u.uid, createdAt := now } }

/-- Model of `deleteCustomQuestion`: skipped without a user; otherwise removes the
document at the given id. -/
def deleteCustomQuestion (cu : Option FireUser) (db : Firestore) (qid : Nat) :
    Firestore :=
  match getValidUser cu with
  | none => db
  | some _ =>
      { db with user_questions := db.user_questions.filter (fun p => p.1 ≠ qid) }

/-! ### Text cleaning (src/services/geminiService.ts, `getAudioFromText`)

Texts are lists of UTF-16 code units.  The transform chains two global
replaces and a substring call: strip every occurrence of the three markdown
marks, rewrite each double newline as a dot followed by a space, and keep
the first 1500 code units.  Code 35 is '#', 42 is '*', 96 is the backquote,
10 is the newline, 46 is '.', 32 is the space. -/

/-- First replace: drop every '#', '*' and backquote character. -/
def stripMd (t : List Nat) : List Nat :=
  t.filter (fun c => !(c = 35 || c = 42 || c = 96))

/-- Second replace: each non-overlapping double newline becomes a dot and a
space, scanning left to right as a global regex replace does. -/
def replaceNN : List Nat → List Nat
  | [] => []
  | [c] => [c]
  | c1 :: c2 :: rest =>
      if c1 = 10 ∧ c2 = 10 then 46 :: 32 :: replaceNN rest
      else c1 :: replaceNN (c2 :: rest)

/-- The cleaned text sent to the TTS model: strip, replace, truncate to the
first 1500 code units. -/
def cleanText (t : List Nat) : List Nat :=
  (replaceNN (stripMd t)).take 1500

/-- The fixed prompt prepended before the cleaned text. -/
def ttsPromptHeader : List Nat :=
  ("Explain this as a friendly mentor in a podcast style: ".data.map Char.toNat)

/-- The full request text `getAudioFromText` sends to the TTS collaborator
on a cache miss. -/
def ttsRequestText (t : List Nat) : List Nat :=
  ttsPromptHeader ++ cleanText t

theorem mem_replaceNN : ∀ (l : List Nat) (c : Nat), c ∈ replaceNN l →
    c ∈ l ∨ c = 46 ∨ c = 32
  | [], c => by simp [replaceNN]
  | [a], c => by
      intro h
      simp [replaceNN] at h
      exact Or.inl (by simp [h])
  | a :: b :: rest, c => by
      simp only [replaceNN]
      split
      · intro h
        rcases List.mem_cons.mp h with h1 | h1
        · exact Or.inr (Or.inl h1)
        · rcases List.mem_cons.mp h1 with h2 | h2
          · exact Or.inr (Or.inr h2)
          · rcases mem_replaceNN rest c h2 with h3 | h3
            · exact Or.inl (by simp [h3])
            · exact Or.inr h3
      · intro h
        rcases List.mem_cons.mp h with h1 | h1
        · exact Or.inl (by simp [h1])
        · rcases mem_replaceNN (b :: rest) c h1 with h2 | h2
          · exact Or.inl (by simpa using Or.inr h2)
          · exact Or.inr h2

/-! ## Claims -/

/-- Helper for C4: successive audio chunks scheduled with no interruption in
between never overlap — each slot starts no earlier than the previous slot
start plus its duration. -/
theorem schedRun_chain : ∀ (ps : List (ℚ × ℚ)) (n : ℚ),
    List.Chain' (fun a b : ℚ × ℚ => a.1 + a.2 ≤ b.1) (schedRun n ps)
  | [], _ => List.chain'_nil
  | p :: rest, n => by
      rw [schedRun]
      refine List.chain'_cons'.mpr ⟨?_, schedRun_chain rest _⟩
      intro b hb
      cases rest with
      | nil => simp [schedRun] at hb
      | cons q r =>
          have hbe : (max (max n p.1 + p.2) q.1, q.2) = b := by
            simpa [schedRun] using hb
          show max n p.1 + p.2 ≤ b.1
          rw [← hbe]
          exact le_max_left _ _

/-- C1: an inbound audio chunk is scheduled at
`max nextAvailableStartTime currentClockTime`, after which
`nextAvailableStartTime` advances to the start time plus the clip duration;
consequently, N chunks of durations d1..dN arriving instantaneously (clock
pinned at 0, as for a fresh output context) with no interruption get start
times equal to the partial sums d1 + ... + d(i-1). -/
theorem C1_chunk_scheduling :
    (∀ (s : VAState) (ct d : ℚ),
        (step s (.msgAudio ct d)).sources
          = s.sources ++ [⟨s.nextId, max s.nextStartTime ct, d⟩]
        ∧ (step s (.msgAudio ct d)).nextStartTime = max s.nextStartTime ct + d)
    ∧ (∀ ds : List ℚ, (∀ d ∈ ds, 0 ≤ d) → ∀ i, i < ds.length →
        ((runVA initVA (ds.map (fun d => VAEv.msgAudio 0 d))).sources.map
            SourceNode.start).getD i 0 = (ds.take i).sum) := by
  constructor
  · intro s ct d
    exact ⟨rfl, rfl⟩
  · intro ds hds i hi
    have hmap : ds.map (fun d => VAEv.msgAudio 0 d)
        = (ds.map (fun d => ((0 : ℚ), d))).map (fun p => VAEv.msgAudio p.1 p.2) := by
      simp [List.map_map]
    rw [hmap, runVA_audio_sources]
    simp only [initVA, List.nil_append]
    rw [tagIds_map_start, schedRun_zero_ct ds 0 le_rfl hds,
      psumsFrom_getD ds 0 i hi]
    simp

/-- Witness for C1 at the spec example shape: chunks of durations 2 and 3
arriving back to back — the second chunk starts exactly when the first ends. -/
theorem C1_chunk_scheduling_witness :
    (∀ d ∈ [(2 : ℚ), 3], 0 ≤ d)
    ∧ ((runVA initVA ([(2 : ℚ), 3].map (fun d => VAEv.msgAudio 0 d))).sources.map
        SourceNode.start).getD 1 0 = 2 := by
  have h : ∀ d ∈ [(2 : ℚ), 3], 0 ≤ d := by norm_num
  refine ⟨h, ?_⟩
  have := C1_chunk_scheduling.2 [(2 : ℚ), 3] h 1 (by norm_num)
  simpa using this

/-- C2: an interrupted signal stops every tracked source, removes all of
them from the tracked set and resets `nextAvailableStartTime` to 0; a chunk
injected afterwards at clock time `ct` is scheduled exactly at `ct`, that
is, at offset 0 relative to the clock. -/
theorem C2_interrupt_resets :
    (∀ s : VAState,
        (step s .msgInterrupt).sources = []
        ∧ (step s .msgInterrupt).stopped = s.stopped ++ s.sources
        ∧ (step s .msgInterrupt).nextStartTime = 0)
    ∧ (∀ (s : VAState) (ct d : ℚ), 0 ≤ ct →
        (step (step s .msgInterrupt) (.msgAudio ct d)).sources
          = [⟨s.nextId, ct, d⟩]) := by
  constructor
  · intro s
    exact ⟨rfl, rfl, rfl⟩
  · intro s ct d h
    simp [step, max_eq_right h]

/-- Witness for C2: from a state with one scheduled source, interrupt, then
inject a chunk at clock time 1 — it is scheduled at 1, offset 0 from the clock. -/
theorem C2_interrupt_resets_witness :
    ((0 : ℚ) ≤ 1)
    ∧ (step (step (step initVA (.msgAudio 0 5)) .msgInterrupt)
        (.msgAudio 1 2)).sources = [⟨(step initVA (.msgAudio 0 5)).nextId, 1, 2⟩] :=
  ⟨by norm_num, C2_interrupt_resets.2 (step initVA (.msgAudio 0 5)) 1 2 (by norm_num)⟩

/-- C3: in any race of `play` calls where every call is issued before any
earlier one resolves, only the last-issued id is ever started: a completion
whose captured id no longer matches the active token is discarded without
mutating any state. -/
theorem C3_last_play_wins :
    (∀ (p : PState) (i : Nat), p.activeId ≠ some i → pstep p (.decodeDone i) = p)
    ∧ (∀ (ids : List Nat) (L : Nat) (post : List PEv),
        (∀ j, PEv.play j ∉ post) →
        ∀ i ∈ (prun initP ((ids.map PEv.play ++ [PEv.play L]) ++ post)).started,
          i = L) := by
  constructor
  · intro p i h
    simp [pstep, h]
  · intro ids L post hnp i hi
    rw [prun_append] at hi
    have hact : (prun initP (ids.map PEv.play ++ [PEv.play L])).activeId = some L :=
      prun_snoc_play _ L _
    have hstart : (prun initP (ids.map PEv.play ++ [PEv.play L])).started = [] := by
      rw [prun_append]
      show (prun initP (ids.map PEv.play)).started = []
      rw [prun_plays_started]
      rfl
    rcases prun_no_play_started post _ L hnp (Or.inl hact) i hi with h | h
    · rw [hstart] at h
      simp at h
    · exact h

/-- Witness for C3: plays of 1 then 2 issued back to back, then both fetches
resolve — only id 2 is ever started. -/
theorem C3_last_play_wins_witness :
    (∀ j, PEv.play j ∉ [PEv.decodeDone 1, PEv.decodeDone 2])
    ∧ ∀ i ∈ (prun initP (([1].map PEv.play ++ [PEv.play 2]) ++
        [PEv.decodeDone 1, PEv.decodeDone 2])).started, i = 2 := by
  have h : ∀ j, PEv.play j ∉ [PEv.decodeDone 1, PEv.decodeDone 2] := by
    intro j
    simp
  exact ⟨h, C3_last_play_wins.2 [1] 2 _ h⟩

/-- Counterexample to C4 as stated: `startSession` itself never clears the
tracked set, and the remote `onclose` callback only lowers the active flag.
After the trace start, audio chunk, remote close, the controller is back in
the inactive state with a source still tracked, and a new session then
starts with the old source still in the set — the set is not fully cleared
before every new session start. -/
theorem C4_counterexample :
    ((runVA initVA [.startOk 1 10, .msgAudio 0 1, .close]).isActive = false)
    ∧ ((runVA initVA [.startOk 1 10, .msgAudio 0 1, .close]).sources ≠ [])
    ∧ ((runVA initVA [.startOk 1 10, .msgAudio 0 1, .close,
        .startOk 2 11]).sources ≠ []) := by
  refine ⟨rfl, ?_, ?_⟩ <;> decide

/-- C4 (amended): the tracked set is fully cleared by `stopSession` and by
every interruption signal (so a session started after a `stopSession` begins
with an empty set), and chunks scheduled with no interruption between them
never overlap: each slot starts no earlier than the previous slot start plus
its duration.  A session restarted after a bare remote close, without an
intervening `stopSession`, may retain stale sources. -/
theorem C4_amended_clear_and_no_overlap :
    (∀ s : VAState,
        (step s .stopSession).sources = []
        ∧ (step s .msgInterrupt).sources = [])
    ∧ (∀ (ps : List (ℚ × ℚ)) (s : VAState),
        List.Chain' (fun a b : ℚ × ℚ => a.1 + a.2 ≤ b.1)
          (schedRun s.nextStartTime ps)) := by
  constructor
  · intro s
    exact ⟨rfl, rfl⟩
  · intro ps s
    exact schedRun_chain ps s.nextStartTime

/-- C5: `stopAudio` (clip player) and `stopSession` (live session
controller) are idempotent: safe in any state, a second invocation is
effect-free, and afterwards the playing flag is down and the active token
(resp. session handle) is cleared. -/
theorem C5_stop_idempotent :
    (∀ p : PState,
        stopAudio (stopAudio p) = stopAudio p
        ∧ (stopAudio p).isPlaying = false
        ∧ (stopAudio p).activeId = none)
    ∧ (∀ s : VAState,
        step (step s .stopSession) .stopSession = step s .stopSession
        ∧ (step s .stopSession).isActive = false
        ∧ (step s .stopSession).session = none) := by
  constructor
  · intro p
    refine ⟨?_, rfl, rfl⟩
    simp [stopAudio]
  · intro s
    refine ⟨?_, rfl, rfl⟩
    simp [step, stopSessionFn]

/-- C6: when `startSession` fails before the session handle is obtained,
the active flag, the session handle and the whole scheduling state are
untouched (only the output audio context may have been assigned); if the
controller was Idle it stays Idle. -/
theorem C6_start_failure_idle :
    ∀ (s : VAState) (c : Option Nat),
      ((step s (.startFail c)).isActive = s.isActive
        ∧ (step s (.startFail c)).session = s.session
        ∧ (step s (.startFail c)).nextStartTime = s.nextStartTime
        ∧ (step s (.startFail c)).sources = s.sources
        ∧ (step s (.startFail c)).stopped = s.stopped)
      ∧ ((s.isActive = false ∧ s.session = none) →
          (step s (.startFail c)).isActive = false
          ∧ (step s (.startFail c)).session = none) := by
  intro s c
  refine ⟨⟨rfl, rfl, rfl, rfl, rfl⟩, ?_⟩
  intro h
  exact ⟨h.1, h.2⟩

/-- Witness for C6: a connection failure from the initial Idle state leaves
the controller Idle. -/
theorem C6_start_failure_idle_witness :
    (initVA.isActive = false ∧ initVA.session = none)
    ∧ ((step initVA (.startFail (some 3))).isActive = false
        ∧ (step initVA (.startFail (some 3))).session = none) :=
  ⟨⟨rfl, rfl⟩, (C6_start_failure_idle initVA (some 3)).2 ⟨rfl, rfl⟩⟩

/-- A signed-in user whose email is not verified. -/
def unverifiedUser : FireUser := ⟨7, false⟩

def cexEntry : CachedEntry := ⟨5, 1, [], none, 0⟩

def cexDB : Firestore := ⟨[(5, cexEntry)], []⟩

/-- Counterexample to C7 as stated: the auth gate checks only that a user is
signed in, not that the email is verified.  With an authenticated but
unverified user there is no verified authenticated user, yet a cached-answer
read returns a real entry rather than null, and a save really writes. -/
theorem C7_counterexample :
    unverifiedUser.emailVerified = false
    ∧ getCachedAnswer (some unverifiedUser) cexDB 5 = some cexEntry
    ∧ saveAnswerToCache (some unverifiedUser) (Firestore.mk [] []) cexEntry
        ≠ Firestore.mk [] [] := by
  refine ⟨rfl, rfl, ?_⟩
  decide

/-- C7 (amended): every cache operation silently no-ops when there is no
authenticated user at all: reads return null or the empty list, writes
return without writing, and nothing is raised or retried.  Email
verification is not checked by this gate. -/
theorem C7_amended_no_user_noop :
    ∀ (db : Firestore) (qid : Nat) (e : CachedEntry) (q : UserQuestionDoc)
      (now : Nat),
      getCachedAnswer none db qid = none
      ∧ saveAnswerToCache none db e = db
      ∧ getAllCachedIds none db = []
      ∧ getCustomQuestions none db = []
      ∧ saveCustomQuestion none db qid q now = db
      ∧ deleteCustomQuestion none db qid = db := by
  intro db qid e q now
  exact ⟨rfl, rfl, rfl, rfl, rfl, rfl⟩

def userA : FireUser := ⟨1, true⟩

def userB : FireUser := ⟨2, true⟩

/-- Counterexample to C8 as stated: answers are cached under the question id
alone, with no user component in the key.  An entry saved by user A is
returned verbatim by a cached-answer read performed by user B. -/
theorem C8_counterexample :
    userA.uid ≠ userB.uid
    ∧ getCachedAnswer (some userB)
        (saveAnswerToCache (some userA) (Firestore.mk [] []) cexEntry) 5
        = some cexEntry := by
  exact ⟨by decide, rfl⟩

/-- C8 (amended): the AI answer and TTS audio cache is shared across
authenticated users — reads, listings and writes are independent of which
authenticated user performs them — while custom questions are per-user: a
question saved by one user is stamped with that uid and is never returned
by another user's custom-question read. -/
theorem C8_amended_shared_answers :
    (∀ (u1 u2 : FireUser) (db : Firestore) (qid : Nat) (e : CachedEntry),
        getCachedAnswer (some u1) db qid = getCachedAnswer (some u2) db qid
        ∧ saveAnswerToCache (some u1) db e = saveAnswerToCache (some u2) db e
        ∧ getAllCachedIds (some u1) db = getAllCachedIds (some u2) db)
    ∧ (∀ (uA uB : FireUser) (db : Firestore) (qid : Nat) (q : UserQuestionDoc)
        (now : Nat),
        uA.uid ≠ uB.uid →
        ∀ p ∈ getCustomQuestions (some uB)
            (saveCustomQuestion (some uA) db qid q now),
          p.1 ≠ qid) := by
  constructor
  · intro u1 u2 db qid e
    exact ⟨rfl, rfl, rfl⟩
  · intro uA uB db qid q now hne p hp
    simp only [getCustomQuestions, saveCustomQuestion, getValidUser, upsert,
      List.filter_append, List.mem_append, List.mem_filter,
      decide_eq_true_eq] at hp
    rcases hp with ⟨hm, _⟩ | ⟨hm, hu⟩
    · exact hm.2
    · have hq : p = (qid, { q with userId := uA.uid, createdAt := now }) := by
        simpa using hm
      rw [hq] at hu
      exact absurd (by simpa using hu) hne

def qDoc : UserQuestionDoc := ⟨0, 0, true, 0, 0⟩

/-- Witness for C8 (amended): user A saves a custom question, user B does
not see it. -/
theorem C8_amended_shared_answers_witness :
    userA.uid ≠ userB.uid
    ∧ ∀ p ∈ getCustomQuestions (some userB)
        (saveCustomQuestion (some userA) (Firestore.mk [] []) 9 qDoc 0),
      p.1 ≠ 9 :=
  ⟨by decide,
    C8_amended_shared_answers.2 userA userB (Firestore.mk [] []) 9 qDoc 0 (by decide)⟩

/-- Counterexample to C9 as stated: the browser decoder is forgiving, so the
well-formed base64 string QR== (codes 81, 82, 61, 61) decodes — its nonzero
padding bits are discarded — but re-encoding yields the canonical QQ==, not
the original string. -/
theorem C9_counterexample :
    validB64 [81, 82, 61, 61] = true
    ∧ b64encode (b64decode [81, 82, 61, 61]) ≠ [81, 82, 61, 61] := by
  exact ⟨by decide, by decide⟩

/-- C9 (amended): decode is a left inverse of encode on every byte array,
and encode is a left inverse of decode on every canonical base64 string —
one that is the encoding of some byte array.  Accepted but non-canonical
strings (nonzero discarded padding bits) are not restored verbatim. -/
theorem C9_amended_roundtrip :
    (∀ bs : List Nat, (∀ x ∈ bs, x < 256) → b64decode (b64encode bs) = bs)
    ∧ (∀ s : List Nat, (∃ bs, (∀ x ∈ bs, x < 256) ∧ s = b64encode bs) →
        b64encode (b64decode s) = s) := by
  refine ⟨b64_roundTrip, ?_⟩
  rintro s ⟨bs, hbs, rfl⟩
  rw [b64_roundTrip bs hbs]

/-- Witness for C9 (amended) on concrete inputs of all three padding shapes. -/
theorem C9_amended_roundtrip_witness :
    (∀ x ∈ [0, 100, 255], x < 256)
    ∧ b64decode (b64encode [0, 100, 255]) = [0, 100, 255]
    ∧ b64encode (b64decode (b64encode [7, 8])) = b64encode [7, 8]
    ∧ b64encode (b64decode (b64encode [9])) = b64encode [9] := by
  have h : ∀ x ∈ [0, 100, 255], x < 256 := by decide
  refine ⟨h, C9_amended_roundtrip.1 [0, 100, 255] h, ?_, ?_⟩
  · exact C9_amended_roundtrip.2 _ ⟨[7, 8], by decide, rfl⟩
  · exact C9_amended_roundtrip.2 _ ⟨[9], by decide, rfl⟩

/-- C10: on a cache miss `getAudioFromText` sends the fixed podcast prompt
followed by the cleaned text: markdown marks stripped, double newlines
turned into a dot and a space, truncated to the first 1500 code units — so
of a longer cleaned text only that prefix is ever spoken, and no stripped
character survives in it. -/
theorem C10_tts_clean_truncate :
    ∀ t : List Nat,
      ttsRequestText t = ttsPromptHeader ++ cleanText t
      ∧ cleanText t = (replaceNN (stripMd t)).take 1500
      ∧ (cleanText t).length ≤ 1500
      ∧ replaceNN (stripMd t) = cleanText t ++ (replaceNN (stripMd t)).drop 1500
      ∧ (∀ c ∈ cleanText t, c ≠ 35 ∧ c ≠ 42 ∧ c ≠ 96) := by
  intro t
  refine ⟨rfl, rfl, ?_, ?_, ?_⟩
  · exact List.length_take_le 1500 (replaceNN (stripMd t))
  · simp [cleanText, List.take_append_drop]
  · intro c hc
    have h1 : c ∈ replaceNN (stripMd t) :=
      List.Sublist.mem hc (List.take_sublist 1500 _)
    rcases mem_replaceNN _ c h1 with h2 | h2
    · have h3 := (List.mem_filter.mp h2).2
      simp at h3
      obtain ⟨⟨h35, h42⟩, h96⟩ := h3
      exact ⟨h35, h42, h96⟩
    · rcases h2 with rfl | rfl <;> decide

/-- Witness for C10: a text containing a hash and a double newline is
cleaned, and the cleaned form contains none of the stripped characters. -/
theorem C10_tts_clean_truncate_witness :
    cleanText [35, 72, 10, 10, 105] = [72, 46, 32, 105]
    ∧ ((46 : Nat) ≠ 35 ∧ (46 : Nat) ≠ 42 ∧ (46 : Nat) ≠ 96) := by
  refine ⟨by decide, ?_⟩
  exact (C10_tts_clean_truncate [35, 72, 10, 10, 105]).2.2.2.2 46 (by decide)

end AngularMentor
